import Mathlib

/-!
Verification of the call-transcript summarization and classification pipeline
(`summarize.py`, `topic.py`, `virgullu.py`).

The Python sources are shallowly embedded as executable Lean definitions:

* Python strings are `String` / `List Char`; `str.strip()` is `pyStrip` over
  the characters (the ASCII whitespace set that the repository's data can
  contain).
* `json.loads` is embedded as a recursive-descent parser `parseJsonChars`
  over an inductive `Json` type.  It covers the JSON subset relevant to the
  repository (objects, arrays, strings with the single-character escapes,
  integers, booleans, null); inputs outside this subset fail to parse, which
  the pipeline maps to the same degraded result as a Python `JSONDecodeError`.
* The HTTP layer (`requests.post`, `raise_for_status`, `response.json()`) is
  embedded as an oracle `Payload → Nat → HttpResp` giving the endpoint's
  behaviour for each request payload and attempt number; exceptions become
  `Except.error` values carrying the stringified cause.
* `print` diagnostics are collected as lists of strings where a claim
  mentions them; `time.sleep(1)` calls are counted.
-/

/-! ## Python string primitives -/

/-- The whitespace characters recognised by `str.strip()` (ASCII subset). -/
def isPyWS (c : Char) : Bool :=
  c = ' ' || c = '\t' || c = '\n' || c = '\r' || c = Char.ofNat 11 || c = Char.ofNat 12

/-- Left strip: drop leading whitespace, as in Python `str.lstrip()`. -/
def lstripChars (l : List Char) : List Char := l.dropWhile isPyWS

/-- Right strip: drop trailing whitespace, as in Python `str.rstrip()`. -/
def rstripChars (l : List Char) : List Char := (l.reverse.dropWhile isPyWS).reverse

/-- Python `str.strip()` on a character list. -/
def pyStrip (l : List Char) : List Char := rstripChars (lstripChars l)

/-- Python `str.strip()` on a `String`. -/
def pyStripS (s : String) : String := String.mk (pyStrip s.data)

/-! ## The JSON value model (`json.loads` result objects) -/

/-- JSON values as produced by `json.loads`: `null`/`true`/`false` become
`None`/`True`/`False`, numbers (integers in the embedded subset), strings,
arrays and objects.  Objects keep their key/value pairs in source order;
lookups take the last occurrence of a duplicated key, as a Python `dict`
built by `json.loads` does. -/
inductive Json where
  | null : Json
  | bool (b : Bool) : Json
  | num (n : Int) : Json
  | str (s : String) : Json
  | arr (xs : List Json) : Json
  | obj (kvs : List (String × Json)) : Json

mutual

/-- Python `repr` of a decoded JSON value (used by `str` on containers).
String escaping inside `repr` is not reproduced; the repository's claims
never exercise it. -/
def pyRepr : Json → String
  | Json.null => "None"
  | Json.bool true => "True"
  | Json.bool false => "False"
  | Json.num n => toString n
  | Json.str s => "'" ++ s ++ "'"
  | Json.arr xs => "[" ++ pyReprList xs ++ "]"
  | Json.obj kvs => "\x7b" ++ pyReprPairs kvs ++ "\x7d"

/-- Comma-separated `repr` of a list of JSON values. -/
def pyReprList : List Json → String
  | [] => ""
  | [x] => pyRepr x
  | x :: y :: r => pyRepr x ++ ", " ++ pyReprList (y :: r)

/-- Comma-separated `repr` of object members. -/
def pyReprPairs : List (String × Json) → String
  | [] => ""
  | [kv] => "'" ++ kv.1 ++ "': " ++ pyRepr kv.2
  | kv :: kv2 :: r => "'" ++ kv.1 ++ "': " ++ pyRepr kv.2 ++ ", " ++ pyReprPairs (kv2 :: r)

end

/-- Python `str(x)` for a decoded JSON value. -/
def pyStr : Json → String
  | Json.null => "None"
  | Json.bool true => "True"
  | Json.bool false => "False"
  | Json.num n => toString n
  | Json.str s => s
  | Json.arr xs => pyRepr (Json.arr xs)
  | Json.obj kvs => pyRepr (Json.obj kvs)

/-! ## The JSON parser (embedding of `json.loads`) -/

/-- The opening brace character. -/
def braceOpen : Char := Char.ofNat 123

/-- The closing brace character. -/
def braceClose : Char := Char.ofNat 125

/-- JSON insignificant whitespace (space, tab, newline, carriage return). -/
def isJsonWs (c : Char) : Bool :=
  c = ' ' || c = '\t' || c = '\n' || c = '\r'

/-- Skip insignificant whitespace. -/
def skipWs (cs : List Char) : List Char := cs.dropWhile isJsonWs

/-- Decode a single-character JSON string escape. -/
def escChar (c : Char) : Option Char :=
  if c = '\"' then some '\"'
  else if c = '\\' then some '\\'
  else if c = '/' then some '/'
  else if c = 'n' then some '\n'
  else if c = 't' then some '\t'
  else if c = 'r' then some '\r'
  else if c = 'b' then some (Char.ofNat 8)
  else if c = 'f' then some (Char.ofNat 12)
  else none

/-- Parse the body of a JSON string literal (the opening quote already
consumed), accumulating decoded characters; returns the decoded string and
the unconsumed remainder. -/
def parseStringF : Nat → List Char → List Char → Option (String × List Char)
  | 0, _, _ => none
  | _ + 1, [], _ => none
  | n + 1, c :: r, acc =>
    if c = '\"' then some (String.mk acc.reverse, r)
    else if c = '\\' then
      match r with
      | [] => none
      | e :: r2 =>
        match escChar e with
        | some ec => parseStringF n r2 (ec :: acc)
        | none => none
    else if c.toNat < 32 then none
    else parseStringF n r (c :: acc)

/-- Consume an expected literal character sequence. -/
def dropLit : List Char → List Char → Option (List Char)
  | [], cs => some cs
  | _ :: _, [] => none
  | p :: ps, c :: cs => if c = p then dropLit ps cs else none

/-- Parse a digit run starting with digit `d`; rejects leading zeros as
strict JSON does. -/
def parseDigits (d : Char) (r : List Char) : Option (Nat × List Char) :=
  let ds := r.takeWhile Char.isDigit
  let rest := r.dropWhile Char.isDigit
  if d = '0' && !ds.isEmpty then none
  else some ((d :: ds).foldl (fun a c => a * 10 + (c.toNat - 48)) 0, rest)

/-- Parse a JSON number beginning at character `c` (integers only in the
embedded subset). -/
def parseNumberFrom (c : Char) (r : List Char) : Option (Json × List Char) :=
  if c = '-' then
    match r with
    | [] => none
    | d :: r2 =>
      if d.isDigit then
        match parseDigits d r2 with
        | some (v, rest) => some (Json.num (-(v : Int)), rest)
        | none => none
      else none
  else if c.isDigit then
    match parseDigits c r with
    | some (v, rest) => some (Json.num (v : Int), rest)
    | none => none
  else none

mutual

/-- Parse one JSON value; returns the value and the unconsumed remainder. -/
def parseValue : Nat → List Char → Option (Json × List Char)
  | 0, _ => none
  | n + 1, cs =>
    match skipWs cs with
    | [] => none
    | c :: r =>
      if c = braceOpen then
        match parseObjItems n r with
        | some (kvs, rest) => some (Json.obj kvs, rest)
        | none => none
      else if c = '[' then
        match parseArrItems n r with
        | some (xs, rest) => some (Json.arr xs, rest)
        | none => none
      else if c = '\"' then
        match parseStringF n r [] with
        | some (s, rest) => some (Json.str s, rest)
        | none => none
      else if c = 't' then
        match dropLit ['r', 'u', 'e'] r with
        | some rest => some (Json.bool true, rest)
        | none => none
      else if c = 'f' then
        match dropLit ['a', 'l', 's', 'e'] r with
        | some rest => some (Json.bool false, rest)
        | none => none
      else if c = 'n' then
        match dropLit ['u', 'l', 'l'] r with
        | some rest => some (Json.null, rest)
        | none => none
      else parseNumberFrom c r

/-- Parse object members directly after the opening brace, including the
closing brace. -/
def parseObjItems : Nat → List Char → Option (List (String × Json) × List Char)
  | 0, _ => none
  | n + 1, cs =>
    match skipWs cs with
    | [] => none
    | c :: r =>
      if c = braceClose then some ([], r)
      else if c = '\"' then
        match parseStringF n r [] with
        | some (k, rest1) =>
          match skipWs rest1 with
          | ':' :: rest2 =>
            match parseValue n rest2 with
            | some (v, rest3) =>
              match parseObjMore n rest3 with
              | some (kvs, rest4) => some ((k, v) :: kvs, rest4)
              | none => none
            | none => none
          | _ => none
        | none => none
      else none

/-- Parse the remaining members of an object: either the closing brace or a
comma followed by another member. -/
def parseObjMore : Nat → List Char → Option (List (String × Json) × List Char)
  | 0, _ => none
  | n + 1, cs =>
    match skipWs cs with
    | [] => none
    | c :: r =>
      if c = braceClose then some ([], r)
      else if c = ',' then
        match skipWs r with
        | [] => none
        | c2 :: r2 =>
          if c2 = '\"' then
            match parseStringF n r2 [] with
            | some (k, rest1) =>
              match skipWs rest1 with
              | ':' :: rest2 =>
                match parseValue n rest2 with
                | some (v, rest3) =>
                  match parseObjMore n rest3 with
                  | some (kvs, rest4) => some ((k, v) :: kvs, rest4)
                  | none => none
                | none => none
              | _ => none
            | none => none
          else none
      else none

/-- Parse array elements directly after the opening bracket, including the
closing bracket. -/
def parseArrItems : Nat → List Char → Option (List Json × List Char)
  | 0, _ => none
  | n + 1, cs =>
    match skipWs cs with
    | [] => none
    | c :: r =>
      if c = ']' then some ([], r)
      else
        match parseValue n (c :: r) with
        | some (v, rest1) =>
          match parseArrMore n rest1 with
          | some (xs, rest2) => some (v :: xs, rest2)
          | none => none
        | none => none

/-- Parse the remaining elements of an array: either the closing bracket or
a comma followed by another element. -/
def parseArrMore : Nat → List Char → Option (List Json × List Char)
  | 0, _ => none
  | n + 1, cs =>
    match skipWs cs with
    | [] => none
    | c :: r =>
      if c = ']' then some ([], r)
      else if c = ',' then
        match parseValue n r with
        | some (v, rest1) =>
          match parseArrMore n rest1 with
          | some (xs, rest2) => some (v :: xs, rest2)
          | none => none
        | none => none
      else none

end

/-- `json.loads` on a character list: parse one value and require only
whitespace to remain. -/
def parseJsonChars (cs : List Char) : Option Json :=
  match parseValue (cs.length + 1) cs with
  | some (j, rest) => if skipWs rest = [] then some j else none
  | none => none

/-! ## Response Extractor — Classification (`topic.py` lines 131-157) -/

/-- Python `str.find` for a single character: index of the first occurrence
or `none` (Python returns `-1`). -/
def findCharIdx (c : Char) : List Char → Option Nat
  | [] => none
  | a :: t => if a = c then some 0 else (findCharIdx c t).map (· + 1)

/-- Python `str.rfind` for a single character: index of the last occurrence
or `none` (Python returns `-1`). -/
def rfindCharIdx (c : Char) (l : List Char) : Option Nat :=
  (findCharIdx c l.reverse).map (fun k => l.length - 1 - k)

/-- The brace-window slice of `topic.py` lines 134-137: if both a first
opening brace and a last closing brace exist, slice to
`text[first_brace : last_brace + 1]`; otherwise keep the text unchanged. -/
def braceSlice (text : List Char) : List Char :=
  match findCharIdx braceOpen text, rfindCharIdx braceClose text with
  | some i, some j => (text.drop i).take (j + 1 - i)
  | _, _ => text

/-- `dict.get(key, default)` on the raw member list of a decoded JSON
object: the last occurrence of a duplicated key wins, as in a `dict` built
by `json.loads`. -/
def objGetDefault (kvs : List (String × Json)) (key : String) (dflt : Json) : Json :=
  match kvs.reverse.find? (fun kv => kv.1 == key) with
  | some kv => kv.2
  | none => dflt

/-- First-occurrence deduplication of object keys, matching iteration order
of a `dict` built by `json.loads`. -/
def dedupFirstGo (seen : List String) : List String → List String
  | [] => []
  | x :: r => if seen.contains x then dedupFirstGo seen r else x :: dedupFirstGo (x :: seen) r

/-- Python iteration over the object bound to `subcategories`: lists and
strings and dicts are iterable (a string yields its characters, a dict its
keys); any other value raises `TypeError`. -/
def pyIterElems : Json → Except String (List Json)
  | Json.arr xs => Except.ok xs
  | Json.str s => Except.ok (s.data.map (fun c => Json.str (String.mk [c])))
  | Json.obj kvs => Except.ok ((dedupFirstGo [] (kvs.map Prod.fst)).map Json.str)
  | _ => Except.error "TypeError: not iterable"

/-- The fallible prefix of the `try` block of `topic.py` lines 131-143:
strip the raw content, slice to the brace window, `json.loads` the slice,
`parsed.get("subcategories", [])`, and start iterating the result.  Any
Python exception on this path becomes `Except.error` with the cause. -/
def usableSubList (raw_content : String) : Except String (List Json) :=
  let text := braceSlice (pyStrip raw_content.data)
  match parseJsonChars text with
  | none => Except.error "Expecting value"
  | some parsed =>
    match parsed with
    | Json.obj kvs => pyIterElems (objGetDefault kvs "subcategories" (Json.arr []))
    | _ => Except.error "AttributeError: get"

/-- Result of the classification extractor: the three subcategory slots and
the diagnostic lines printed on a parse failure. -/
structure ExtractOutcome where
  slots : List String
  diag : List String

/-- The classification response extractor (`topic.py` lines 131-157): parse
the assistant text, coerce each element to trimmed text dropping blanks,
truncate to 3 or pad with empty strings; on any exception log the failure
and the raw text and return three empty placeholders. -/
def extractClassification (raw_content : String) : ExtractOutcome :=
  match usableSubList raw_content with
  | Except.error e =>
    ⟨["", "", ""],
     ["[ERROR] Failed to parse JSON from LLM response: " ++ e,
      "Raw content was: " ++ raw_content]⟩
  | Except.ok xs =>
    let sub_list := (xs.map (fun s => pyStripS (pyStr s))).filter (fun s => !(s == ""))
    if 3 < sub_list.length then ⟨sub_list.take 3, []⟩
    else ⟨sub_list ++ List.replicate (3 - sub_list.length) "", []⟩

/-! ## Category Catalog (`topic.py` `load_categories`) -/

/-- Python `dict` insertion on an association list: overwrite in place if
the key is present, else append. -/
def dictInsert (d : List (String × String)) (k v : String) : List (String × String) :=
  if d.any (fun kv => kv.1 == k) then
    d.map (fun kv => if kv.1 == k then (k, v) else kv)
  else d ++ [(k, v)]

/-- `load_categories` (`topic.py` lines 23-45) on the logical
(main category, sub category) rows of the category sheet: strip both
columns, build `sub_to_main` with last-write-wins on duplicate subcategory
keys, and return the key list together with the mapping. -/
def load_categories (rows : List (String × String)) : List String × List (String × String) :=
  let stripped := rows.map (fun r => (pyStripS r.1, pyStripS r.2))
  let sub_to_main := stripped.foldl (fun d r => dictInsert d r.2 r.1) []
  (sub_to_main.map Prod.fst, sub_to_main)

/-- `dict.get(key, default)` on the catalog mapping. -/
def pyDictGetStr (d : List (String × String)) (k dflt : String) : String :=
  match d.find? (fun kv => kv.1 == k) with
  | some kv => kv.2
  | none => dflt

/-- Main-category resolution of `topic.py` lines 187-189:
`sub_to_main.get(s, "") if s else ""`. -/
def resolveMain (sub_to_main : List (String × String)) (s : String) : String :=
  if s = "" then "" else pyDictGetStr sub_to_main s ""

/-! ## The LLM Client (HTTP layer, retry loops) -/

/-- One chat message of the request payload. -/
structure ChatMsg where
  role : String
  content : String
deriving DecidableEq

/-- The JSON body POSTed to the endpoint (`\x7b"model": ..., "messages": ...\x7d`). -/
structure Payload where
  model : String
  messages : List ChatMsg
deriving DecidableEq

/-- The configured model name. -/
def MODEL_NAME : String := "llama3"

/-- The configured maximum number of attempts. -/
def MAX_RETRIES : Nat := 2

/-- Outcome of one `requests.post` call: a transport exception, or a
response with a status code and a body (`none` when the body is not valid
JSON, so that `response.json()` raises). -/
inductive HttpResp where
  | netError (e : String) : HttpResp
  | response (status : Nat) (body : Option Json) : HttpResp

/-- Python subscription `x[key]` on a decoded JSON value: `KeyError` /
`TypeError` become `none`. -/
def pyIndexStr (j : Json) (key : String) : Option Json :=
  match j with
  | Json.obj kvs =>
    match kvs.reverse.find? (fun kv => kv.1 == key) with
    | some kv => some kv.2
    | none => none
  | _ => none

/-- Python subscription `x[i]` on a decoded JSON value (lists and strings
are indexable): `IndexError` / `TypeError` become `none`. -/
def pyIndexNat (j : Json) (i : Nat) : Option Json :=
  match j with
  | Json.arr xs => xs.get? i
  | Json.str s => (s.data.get? i).map (fun c => Json.str (String.mk [c]))
  | _ => none

/-- `data["choices"][0]["message"]["content"]`. -/
def getChoicesContent (data : Json) : Option Json := do
  let choices ← pyIndexStr data "choices"
  let c0 ← pyIndexNat choices 0
  let msg ← pyIndexStr c0 "message"
  pyIndexStr msg "content"

/-- One attempt of the `try` block of `call_llm` (`topic.py` lines 100-111):
post, `raise_for_status`, `response.json()`, extract the content (any JSON
value); every exception becomes `Except.error` with the cause. -/
def topicAttempt : HttpResp → Except String Json
  | HttpResp.netError e => Except.error e
  | HttpResp.response st body =>
    if 400 ≤ st ∧ st < 600 then Except.error ("HTTP error " ++ toString st)
    else
      match body with
      | none => Except.error "response body is not JSON"
      | some data =>
        match getChoicesContent data with
        | some c => Except.ok c
        | none => Except.error "missing choices message content"

/-- One attempt of the `try` block of `summarize_with_llm` (`summarize.py`
lines 53-66): as `topicAttempt`, but the block ends with
`return summary.strip()`, which additionally raises when the content is not
a string. -/
def summarizeAttempt : HttpResp → Except String String
  | HttpResp.netError e => Except.error e
  | HttpResp.response st body =>
    if 400 ≤ st ∧ st < 600 then Except.error ("HTTP error " ++ toString st)
    else
      match body with
      | none => Except.error "response body is not JSON"
      | some data =>
        match getChoicesContent data with
        | some (Json.str s) => Except.ok (pyStripS s)
        | some _ => Except.error "AttributeError: strip"
        | none => Except.error "missing choices message content"

/-- The failure cause of one attempt at the transport / response-shape
level, shared by both clients (`none` when the attempt reaches a content
value). -/
def attemptFailure (r : HttpResp) : Option String :=
  match topicAttempt r with
  | Except.error e => some e
  | Except.ok _ => none

/-- Trace of one client invocation: the returned value, the number of HTTP
attempts made, and the number of `time.sleep(1)` calls. -/
structure LlmCallTrace (α : Type) where
  result : α
  attempts : Nat
  sleeps : Nat
deriving DecidableEq

/-- The retry loop of `call_llm` (`topic.py` lines 99-118): `oracle i` is
the endpoint's behaviour on attempt `i`; on success return the content, on
failure remember the cause, sleep only when further attempts remain, and
after exhausting all attempts return the string
`"[LLM_ERROR] " ++ last cause`. -/
def callLlmGo (oracle : Nat → HttpResp) :
    Nat → Nat → Nat → Nat → String → LlmCallTrace Json
  | 0, _, made, sleeps, lastErr =>
    ⟨Json.str ("[LLM_ERROR] " ++ lastErr), made, sleeps⟩
  | r + 1, attempt, made, sleeps, _ =>
    match topicAttempt (oracle attempt) with
    | Except.ok c => ⟨c, made + 1, sleeps⟩
    | Except.error e =>
      if r = 0 then callLlmGo oracle r (attempt + 1) (made + 1) sleeps e
      else callLlmGo oracle r (attempt + 1) (made + 1) (sleeps + 1) e

/-- The retry loop of `summarize_with_llm` (`summarize.py` lines 50-75),
returning `"[SUMMARY_ERROR] " ++ last cause` after exhausting all attempts. -/
def summarizeGo (oracle : Nat → HttpResp) :
    Nat → Nat → Nat → Nat → String → LlmCallTrace String
  | 0, _, made, sleeps, lastErr =>
    ⟨"[SUMMARY_ERROR] " ++ lastErr, made, sleeps⟩
  | r + 1, attempt, made, sleeps, _ =>
    match summarizeAttempt (oracle attempt) with
    | Except.ok s => ⟨s, made + 1, sleeps⟩
    | Except.error e =>
      if r = 0 then summarizeGo oracle r (attempt + 1) (made + 1) sleeps e
      else summarizeGo oracle r (attempt + 1) (made + 1) (sleeps + 1) e

/-- `call_llm` (`topic.py` lines 88-118): build the payload and run the
retry loop against the endpoint oracle (a function of the payload and the
attempt number). -/
def call_llm (messages : List ChatMsg) (respond : Payload → Nat → HttpResp) :
    LlmCallTrace Json :=
  callLlmGo (respond ⟨MODEL_NAME, messages⟩) MAX_RETRIES 1 0 0 "None"

/-- `build_messages` of `summarize.py` / `virgullu.py` (identical in both):
the summary-mode prompt. -/
def build_messages (transcript : String) : List ChatMsg :=
  [⟨"system",
    "You are an assistant that summarizes phone call transcripts. " ++
    "Write a clear, concise summary of the call in 3–5 sentences."⟩,
   ⟨"user",
    "Here is the call transcript:\n\n" ++ transcript ++
    "\n\nPlease provide only the summary."⟩]

/-- `summarize_with_llm` (`summarize.py` lines 39-75): build the messages
and run the retry loop; each successful attempt returns the content
stripped. -/
def summarize_with_llm (transcript : String) (respond : Payload → Nat → HttpResp) :
    LlmCallTrace String :=
  summarizeGo (respond ⟨MODEL_NAME, build_messages transcript⟩) MAX_RETRIES 1 0 0 "None"

/-- `build_classification_messages` (`topic.py` lines 47-86): the
classification-mode prompt embedding the subcategory catalog. -/
def build_classification_messages (summary_text : String) (subcategories : List String) :
    List ChatMsg :=
  let subcat_list_text := String.intercalate "\n" (subcategories.map (fun s => "- " ++ s))
  [⟨"system",
    "You are an assistant that classifies call summaries into predefined subcategories. " ++
    "You MUST choose exactly 3 DISTINCT subcategories from the given list. " ++
    "Return ONLY valid JSON, with no extra text."⟩,
   ⟨"user",
    "\nHere is the call summary:\n\n\"\"\"" ++ summary_text ++ "\"\"\"\n\n" ++
    "Here is the list of AVAILABLE subcategories (you MUST select only from these, " ++
    "do not invent new ones):\n\n" ++ subcat_list_text ++ "\n\nTask:\n" ++
    "- Select the 3 most relevant subcategories for this summary.\n" ++
    "- They must be distinct and come from the list above.\n" ++
    "- Return ONLY valid JSON in this exact format:\n\n\x7b\n  \"subcategories\": [\n" ++
    "    \"sub_category_name_1\",\n    \"sub_category_name_2\",\n" ++
    "    \"sub_category_name_3\"\n  ]\n\x7d\n"⟩]

/-! ## `classify_summary` and the per-row drivers -/

/-- Trace of one `classify_summary` call: the returned list, the diagnostic
lines printed, and the number of LLM Client invocations. -/
structure ClassifyTrace where
  slots : List String
  diag : List String
  llmCalls : Nat
deriving DecidableEq

/-- The extractor applied to the value returned by `call_llm`: the raw
content is normally a string; `raw_content.strip()` on any other value
raises inside the `try` block and is caught like a parse failure. -/
def extractClassificationOfJson (raw : Json) : ExtractOutcome :=
  match raw with
  | Json.str s => extractClassification s
  | other =>
    ⟨["", "", ""],
     ["[ERROR] Failed to parse JSON from LLM response: AttributeError: strip",
      "Raw content was: " ++ pyStr other]⟩

/-- `classify_summary` (`topic.py` lines 120-157): a blank summary
short-circuits to the empty list without calling the LLM; otherwise build
the prompt, call the LLM once and run the extractor on the raw content. -/
def classify_summary (summary_text : String) (subcategories : List String)
    (respond : Payload → Nat → HttpResp) : ClassifyTrace :=
  if summary_text = "" ∨ pyStripS summary_text = "" then ⟨[], [], 0⟩
  else
    let raw := (call_llm (build_classification_messages summary_text subcategories) respond).result
    let out := extractClassificationOfJson raw
    ⟨out.slots, out.diag, 1⟩

/-- The per-row summarization step of `summarize.py` `main` (lines 92-101):
a missing (`NaN`, modelled as `none`) or blank transcript yields the empty
summary with no LLM call; otherwise the summary is `summarize_with_llm` of
the stripped transcript.  The second component counts LLM Client
invocations. -/
def summarizeRow (cell : Option String) (respond : Payload → Nat → HttpResp) :
    String × Nat :=
  let transcript := match cell with | none => "" | some v => pyStripS v
  if transcript = "" then ("", 0)
  else ((summarize_with_llm transcript respond).result, 1)

/-- Python `row_text.split(",")` on a character list, with an accumulator
for the current field. -/
def splitCommaGo : List Char → List Char → List (List Char)
  | acc, [] => [acc.reverse]
  | acc, c :: r =>
    if c = ',' then acc.reverse :: splitCommaGo [] r
    else splitCommaGo (c :: acc) r

/-- Python `row_text.split(",")`. -/
def splitComma (l : List Char) : List (List Char) := splitCommaGo [] l

/-- The row text of a cell (`"" if pd.isna(value) else str(value)`). -/
def rowTextOf (cell : Option String) : String :=
  match cell with
  | none => ""
  | some v => v

/-- The per-row step of `virgullu.py` `main` (lines 92-111): split the
single-column row text on commas trimming each part, pad to at least 6
parts, keep the first six as the output columns, use the sixth as the
transcript, and summarize it unless it is empty.  Returns the six columns,
the summary, and the LLM Client invocation count. -/
def virgulluRow (cell : Option String) (respond : Payload → Nat → HttpResp) :
    List String × String × Nat :=
  let row_text := rowTextOf cell
  let parts := (splitComma row_text.data).map (fun p => String.mk (pyStrip p))
  let parts2 := if parts.length < 6 then parts ++ List.replicate (6 - parts.length) "" else parts
  let first_six := parts2.take 6
  let transcript := first_six.getD 5 ""
  if transcript = "" then (first_six, "", 0)
  else (first_six, (summarize_with_llm transcript respond).result, 1)

/-- Restatement of the claimed column shape of the single-column variant:
the comma-split parts, each trimmed, truncated to the first six and padded
with empty strings to exactly six.  Stated from the claim's words, to be
compared with `virgulluRow`. -/
def virgulluColsSpec (cell : Option String) : List String :=
  let parts := (splitComma (rowTextOf cell).data).map (fun p => String.mk (pyStrip p))
  parts.take 6 ++ List.replicate (6 - parts.length) ""

/-! ## Lemmas about stripping -/

theorem dropWhile_dropWhile_self (p : Char → Bool) (l : List Char) :
    (l.dropWhile p).dropWhile p = l.dropWhile p := by
  induction l with
  | nil => rfl
  | cons c r ih =>
    by_cases h : p c
    · simp [List.dropWhile, h, ih]
    · simp [List.dropWhile, h]

theorem dropWhile_head_false (p : Char → Bool) (l : List Char) (c : Char) (r : List Char)
    (h : l.dropWhile p = c :: r) : p c = false := by
  induction l with
  | nil => simp [List.dropWhile] at h
  | cons a t ih =>
    by_cases ha : p a
    · exact ih (by simpa [List.dropWhile, ha] using h)
    · rw [List.dropWhile_cons_of_neg (by simpa using ha)] at h
      obtain ⟨rfl, rfl⟩ := by simpa using h
      simpa using ha

theorem rstripChars_decompose (l : List Char) :
    l = rstripChars l ++ (l.reverse.takeWhile isPyWS).reverse := by
  unfold rstripChars
  conv_lhs =>
    rw [← List.reverse_reverse l,
      ← List.takeWhile_append_dropWhile (p := isPyWS) (l := l.reverse)]
  rw [List.reverse_append]

theorem rstripChars_subset (l : List Char) : rstripChars l ⊆ l := by
  conv_rhs => rw [rstripChars_decompose l]
  exact List.subset_append_left _ _

theorem lstripChars_subset (l : List Char) : lstripChars l ⊆ l := by
  unfold lstripChars
  conv_rhs => rw [← List.takeWhile_append_dropWhile (p := isPyWS) (l := l)]
  exact List.subset_append_right _ _

theorem pyStrip_subset (l : List Char) : pyStrip l ⊆ l :=
  fun _ hx => lstripChars_subset l (rstripChars_subset (lstripChars l) hx)

theorem lstripChars_idem (l : List Char) : lstripChars (lstripChars l) = lstripChars l :=
  dropWhile_dropWhile_self isPyWS l

theorem rstripChars_idem (l : List Char) : rstripChars (rstripChars l) = rstripChars l := by
  unfold rstripChars
  rw [List.reverse_reverse, dropWhile_dropWhile_self]

theorem lstripChars_of_head_false (c : Char) (r : List Char) (h : isPyWS c = false) :
    lstripChars (c :: r) = c :: r := by
  unfold lstripChars
  rw [List.dropWhile_cons_of_neg (by simpa using h)]

theorem lstripChars_eq_self_head (l : List Char) (hl : lstripChars l = l) (c : Char)
    (r : List Char) (hc : l = c :: r) : isPyWS c = false := by
  subst hc
  unfold lstripChars at hl
  by_cases h : isPyWS c
  · exfalso
    rw [List.dropWhile_cons_of_pos (by simpa using h)] at hl
    have := (List.dropWhile_sublist (l := r) isPyWS).length_le
    rw [hl] at this
    simp at this
  · simpa using h

theorem lstripChars_rstripChars (l : List Char) (hl : lstripChars l = l) :
    lstripChars (rstripChars l) = rstripChars l := by
  cases h : rstripChars l with
  | nil => rfl
  | cons c r =>
    have hdec := rstripChars_decompose l
    rw [h] at hdec
    have hc : isPyWS c = false := lstripChars_eq_self_head l hl c (r ++ _) (by simpa using hdec)
    exact lstripChars_of_head_false c r hc

theorem pyStrip_idem (l : List Char) : pyStrip (pyStrip l) = pyStrip l := by
  unfold pyStrip
  rw [lstripChars_rstripChars (lstripChars l) (lstripChars_idem l), rstripChars_idem]

theorem pyStripS_idem (s : String) : pyStripS (pyStripS s) = pyStripS s := by
  unfold pyStripS
  rw [show (String.mk (pyStrip s.data)).data = pyStrip s.data from rfl, pyStrip_idem]

/-! ## Concrete endpoint oracles used in closed statements -/

/-- An endpoint that always fails at the transport level. -/
def failRespond : Payload → Nat → HttpResp := fun _ _ => HttpResp.netError "boom"

/-- A well-formed success body whose assistant content is `" hi "`. -/
def hiData : Json :=
  Json.obj [("choices",
    Json.arr [Json.obj [("message", Json.obj [("content", Json.str " hi ")])]])]

/-- An endpoint that always answers 200 with body `hiData`. -/
def hiRespond : Payload → Nat → HttpResp := fun _ _ => HttpResp.response 200 (some hiData)

/-! ## C6 -/

/-- C6: `extractClassification` on the assistant text
`'\x7b"subcategories":["A","A","B","C"]\x7d'` returns exactly
`["A","A","B"]`: the first three elements in their original order,
truncated to 3, with no deduplication performed. -/
theorem extractClassification_truncation_no_dedup :
    (extractClassification "\x7b\"subcategories\":[\"A\",\"A\",\"B\",\"C\"]\x7d").slots
      = ["A", "A", "B"] := by decide

/-! ## C7 -/

/-- C7: `extractClassification` on
`'preamble \x7b"subcategories":["A","B"]\x7d trailing'` yields the slots
`["A","B",""]`, and resolving each slot through the catalog
`A ↦ X, B ↦ Y` yields main categories `["X","Y",""]`, with unresolved or
empty labels mapped to the empty main-category string. -/
theorem extractClassification_brace_window_resolution :
    (extractClassification "preamble \x7b\"subcategories\":[\"A\",\"B\"]\x7d trailing").slots
      = ["A", "B", ""] ∧
    ((extractClassification
        "preamble \x7b\"subcategories\":[\"A\",\"B\"]\x7d trailing").slots.map
      (resolveMain [("A", "X"), ("B", "Y")])) = ["X", "Y", ""] := by
  exact ⟨by decide, by decide⟩

/-! ## C8 -/

/-- C8: `load_categories` on the rows
`[("Billing","Refund"), ("Billing","Charge"), ("Support","Refund")]`
produces a mapping of size exactly 2 in which `Refund` maps to `Support`
(the last write for a duplicate subcategory key wins) and `Charge` maps to
`Billing`. -/
theorem load_categories_last_write_wins :
    (load_categories [("Billing", "Refund"), ("Billing", "Charge"),
        ("Support", "Refund")]).2.length = 2 ∧
    pyDictGetStr (load_categories [("Billing", "Refund"), ("Billing", "Charge"),
        ("Support", "Refund")]).2 "Refund" "" = "Support" ∧
    pyDictGetStr (load_categories [("Billing", "Refund"), ("Billing", "Charge"),
        ("Support", "Refund")]).2 "Charge" "" = "Billing" := by
  exact ⟨by decide, by decide, by decide⟩

/-! ## Lemmas about single attempts of the LLM Client -/

theorem attemptFailure_topic (r : HttpResp) (e : String)
    (h : attemptFailure r = some e) : topicAttempt r = Except.error e := by
  unfold attemptFailure at h
  cases ht : topicAttempt r <;> rw [ht] at h <;> simp_all

theorem attemptFailure_summarize (r : HttpResp) (e : String)
    (h : attemptFailure r = some e) : summarizeAttempt r = Except.error e := by
  cases r with
  | netError e2 =>
    simp only [attemptFailure, topicAttempt, Option.some.injEq] at h
    simp [summarizeAttempt, h]
  | response st body =>
    by_cases hst : 400 ≤ st ∧ st < 600
    · simp only [attemptFailure, topicAttempt, if_pos hst, Option.some.injEq] at h
      simp [summarizeAttempt, if_pos hst, h]
    · cases body with
      | none =>
        simp only [attemptFailure, topicAttempt, if_neg hst, Option.some.injEq] at h
        simp [summarizeAttempt, if_neg hst, h]
      | some data =>
        cases hg : getChoicesContent data with
        | none =>
          simp only [attemptFailure, topicAttempt, if_neg hst, hg, Option.some.injEq] at h
          simp [summarizeAttempt, if_neg hst, hg, h]
        | some c =>
          simp only [attemptFailure, topicAttempt, if_neg hst, hg] at h
          exact absurd h (by simp)

theorem topicAttempt_ok_of_wellformed (st : Nat) (data : Json) (s : String)
    (h2xx : 200 ≤ st ∧ st < 300) (hc : getChoicesContent data = some (Json.str s)) :
    topicAttempt (HttpResp.response st (some data)) = Except.ok (Json.str s) := by
  simp only [topicAttempt, if_neg (by omega : ¬(400 ≤ st ∧ st < 600)), hc]

theorem summarizeAttempt_ok_of_wellformed (st : Nat) (data : Json) (s : String)
    (h2xx : 200 ≤ st ∧ st < 300) (hc : getChoicesContent data = some (Json.str s)) :
    summarizeAttempt (HttpResp.response st (some data)) = Except.ok (pyStripS s) := by
  simp only [summarizeAttempt, if_neg (by omega : ¬(400 ≤ st ∧ st < 600)), hc]

/-! ## C2 -/

/-- C2 counterexample: on a successful HTTP call (status 200, well-formed
body) whose assistant content is `" hi "`, `summarize_with_llm` of
`summarize.py` returns `"hi"`, not the verbatim content — trimming is
applied at this layer, contrary to the claim. -/
theorem summarize_trims_content_cex :
    getChoicesContent hiData = some (Json.str " hi ") ∧
    (summarize_with_llm "t" hiRespond).result ≠ " hi " ∧
    (summarize_with_llm "t" hiRespond).result = "hi" := ⟨rfl, by decide, by decide⟩

/-- C2 amended: whenever the HTTP call succeeds on the first attempt (2xx
status, well-formed body with string content `s`), `call_llm` of `topic.py`
returns `s` verbatim with no trimming, while `summarize_with_llm` of
`summarize.py` returns `s` stripped of leading and trailing whitespace;
both make exactly one attempt. -/
theorem llm_client_success_content (messages : List ChatMsg) (transcript : String)
    (respond : Payload → Nat → HttpResp) (st : Nat) (data : Json) (s : String)
    (hresp : ∀ p, respond p 1 = HttpResp.response st (some data))
    (h2xx : 200 ≤ st ∧ st < 300)
    (hcontent : getChoicesContent data = some (Json.str s)) :
    (call_llm messages respond).result = Json.str s ∧
    (call_llm messages respond).attempts = 1 ∧
    (summarize_with_llm transcript respond).result = pyStripS s ∧
    (summarize_with_llm transcript respond).attempts = 1 := by
  have hcall : call_llm messages respond = ⟨Json.str s, 1, 0⟩ := by
    unfold call_llm MAX_RETRIES
    rw [show (2 : Nat) = 1 + 1 from rfl]
    unfold callLlmGo
    rw [hresp, topicAttempt_ok_of_wellformed st data s h2xx hcontent]
  have hsumm : summarize_with_llm transcript respond = ⟨pyStripS s, 1, 0⟩ := by
    unfold summarize_with_llm MAX_RETRIES
    rw [show (2 : Nat) = 1 + 1 from rfl]
    unfold summarizeGo
    rw [hresp, summarizeAttempt_ok_of_wellformed st data s h2xx hcontent]
  exact ⟨by rw [hcall], by rw [hcall], by rw [hsumm], by rw [hsumm]⟩

/-- C2 amended, witness: the amended claim at the concrete endpoint
`hiRespond` whose content is `" hi "`. -/
theorem llm_client_success_content_witness :
    (call_llm [] hiRespond).result = Json.str " hi " ∧
    (summarize_with_llm "t" hiRespond).result = pyStripS " hi " := by
  have h := llm_client_success_content [] "t" hiRespond 200 hiData " hi "
    (fun _ => rfl) (by omega) rfl
  exact ⟨h.1, h.2.2.1⟩

/-! ## C3 -/

/-- C3: when every attempt fails at the transport / response-shape level,
both LLM clients make exactly `MAX_RETRIES` attempts, sleep exactly
`MAX_RETRIES - 1` times (only between attempts, never after the final
one), and return — without raising — a failure value embedding the last
observed error cause (`"[LLM_ERROR] ..."` in `topic.py`,
`"[SUMMARY_ERROR] ..."` in `summarize.py`). -/
theorem llm_client_retry_exhaustion (respond : Payload → Nat → HttpResp)
    (hfail : ∀ p i, 1 ≤ i → i ≤ MAX_RETRIES → (attemptFailure (respond p i)).isSome) :
    ∀ messages transcript,
      (call_llm messages respond).attempts = MAX_RETRIES ∧
      (call_llm messages respond).sleeps = MAX_RETRIES - 1 ∧
      (∀ e, attemptFailure (respond ⟨MODEL_NAME, messages⟩ MAX_RETRIES) = some e →
        (call_llm messages respond).result = Json.str ("[LLM_ERROR] " ++ e)) ∧
      (summarize_with_llm transcript respond).attempts = MAX_RETRIES ∧
      (summarize_with_llm transcript respond).sleeps = MAX_RETRIES - 1 ∧
      (∀ e, attemptFailure (respond ⟨MODEL_NAME, build_messages transcript⟩ MAX_RETRIES) = some e →
        (summarize_with_llm transcript respond).result = "[SUMMARY_ERROR] " ++ e) := by
  intro messages transcript
  obtain ⟨e1, he1⟩ := Option.isSome_iff_exists.mp
    (hfail ⟨MODEL_NAME, messages⟩ 1 (by decide) (by decide))
  obtain ⟨e2, he2⟩ := Option.isSome_iff_exists.mp
    (hfail ⟨MODEL_NAME, messages⟩ 2 (by decide) (by decide))
  obtain ⟨f1, hf1⟩ := Option.isSome_iff_exists.mp
    (hfail ⟨MODEL_NAME, build_messages transcript⟩ 1 (by decide) (by decide))
  obtain ⟨f2, hf2⟩ := Option.isSome_iff_exists.mp
    (hfail ⟨MODEL_NAME, build_messages transcript⟩ 2 (by decide) (by decide))
  have hcall : call_llm messages respond = ⟨Json.str ("[LLM_ERROR] " ++ e2), 2, 1⟩ := by
    unfold call_llm MAX_RETRIES
    rw [show (2 : Nat) = 1 + 1 from rfl]
    unfold callLlmGo
    rw [attemptFailure_topic _ _ he1]
    simp only []
    rw [show (1 : Nat) = 0 + 1 from rfl]
    unfold callLlmGo
    rw [attemptFailure_topic _ _ he2]
    rfl
  have hsumm : summarize_with_llm transcript respond = ⟨"[SUMMARY_ERROR] " ++ f2, 2, 1⟩ := by
    unfold summarize_with_llm MAX_RETRIES
    rw [show (2 : Nat) = 1 + 1 from rfl]
    unfold summarizeGo
    rw [attemptFailure_summarize _ _ hf1]
    simp only []
    rw [show (1 : Nat) = 0 + 1 from rfl]
    unfold summarizeGo
    rw [attemptFailure_summarize _ _ hf2]
    rfl
  refine ⟨by rw [hcall]; rfl, by rw [hcall]; rfl, ?_,
    by rw [hsumm]; rfl, by rw [hsumm]; rfl, ?_⟩
  · intro e he
    unfold MAX_RETRIES at he
    rw [he2] at he
    cases he
    rw [hcall]
  · intro e he
    unfold MAX_RETRIES at he
    rw [hf2] at he
    cases he
    rw [hsumm]

/-- C3 witness: the retry-exhaustion behaviour at the concrete
always-failing endpoint `failRespond`. -/
theorem llm_client_retry_exhaustion_witness :
    (call_llm [] failRespond).attempts = MAX_RETRIES ∧
    (call_llm [] failRespond).sleeps = MAX_RETRIES - 1 ∧
    (call_llm [] failRespond).result = Json.str "[LLM_ERROR] boom" ∧
    (summarize_with_llm "t" failRespond).result = "[SUMMARY_ERROR] boom" := by
  have h := llm_client_retry_exhaustion failRespond (fun _ _ _ _ => rfl) [] "t"
  exact ⟨h.1, h.2.1, h.2.2.1 "boom" rfl, h.2.2.2.2.2 "boom" rfl⟩

/-! ## Shape of the extractor output -/

theorem extractClassification_shape (raw : String) :
    (extractClassification raw).slots.length = 3 ∧
    ∀ s ∈ (extractClassification raw).slots, pyStripS s = s := by
  unfold extractClassification
  cases h : usableSubList raw with
  | error e =>
    refine ⟨rfl, ?_⟩
    intro s hs
    simp only [List.mem_cons, List.not_mem_nil, or_false] at hs
    rcases hs with rfl | rfl | rfl <;> rfl
  | ok xs =>
    simp only []
    have hmem : ∀ s ∈ (xs.map (fun s => pyStripS (pyStr s))).filter (fun s => !(s == "")),
        pyStripS s = s := by
      intro s hs
      have hs2 := List.mem_of_mem_filter hs
      obtain ⟨x, _, rfl⟩ := List.mem_map.mp hs2
      exact pyStripS_idem (pyStr x)
    by_cases h3 : 3 < ((xs.map (fun s => pyStripS (pyStr s))).filter (fun s => !(s == ""))).length
    · rw [if_pos h3]
      refine ⟨?_, ?_⟩
      · simp only [List.length_take]
        omega
      · intro s hs
        exact hmem s (List.mem_of_mem_take hs)
    · rw [if_neg h3]
      refine ⟨?_, ?_⟩
      · simp only [List.length_append, List.length_replicate]
        omega
      · intro s hs
        rcases List.mem_append.mp hs with h2 | h2
        · exact hmem s h2
        · rw [List.eq_of_mem_replicate h2]
          rfl

theorem extractClassificationOfJson_shape (raw : Json) :
    (extractClassificationOfJson raw).slots.length = 3 ∧
    ∀ s ∈ (extractClassificationOfJson raw).slots, pyStripS s = s := by
  cases raw with
  | str s => exact extractClassification_shape s
  | null =>
    refine ⟨rfl, ?_⟩
    intro s hs
    simp only [extractClassificationOfJson, List.mem_cons, List.not_mem_nil, or_false] at hs
    rcases hs with rfl | rfl | rfl <;> rfl
  | bool b =>
    refine ⟨rfl, ?_⟩
    intro s hs
    simp only [extractClassificationOfJson, List.mem_cons, List.not_mem_nil, or_false] at hs
    rcases hs with rfl | rfl | rfl <;> rfl
  | num n =>
    refine ⟨rfl, ?_⟩
    intro s hs
    simp only [extractClassificationOfJson, List.mem_cons, List.not_mem_nil, or_false] at hs
    rcases hs with rfl | rfl | rfl <;> rfl
  | arr xs =>
    refine ⟨rfl, ?_⟩
    intro s hs
    simp only [extractClassificationOfJson, List.mem_cons, List.not_mem_nil, or_false] at hs
    rcases hs with rfl | rfl | rfl <;> rfl
  | obj kvs =>
    refine ⟨rfl, ?_⟩
    intro s hs
    simp only [extractClassificationOfJson, List.mem_cons, List.not_mem_nil, or_false] at hs
    rcases hs with rfl | rfl | rfl <;> rfl

/-! ## C1 -/

/-- C1 counterexample: on a whitespace-only summary, `classify_summary`
returns the empty list — 0 slots, not the claimed 3 empty slots. -/
theorem classify_summary_blank_not_three_slots_cex :
    (classify_summary "   " ["Refund"] failRespond).slots.length ≠ 3 ∧
    (classify_summary "   " ["Refund"] failRespond).slots = [] := ⟨by decide, by decide⟩

/-- C1 amended: a blank (empty or whitespace-only) summary yields the empty
list (0 slots) without invoking the LLM Client at all; every other summary
yields exactly 3 slots, each a trimmed string or an empty-string
placeholder, with exactly one LLM Client invocation. -/
theorem classify_summary_shape (summary_text : String) (subcategories : List String)
    (respond : Payload → Nat → HttpResp) :
    (summary_text = "" ∨ pyStripS summary_text = "" →
      classify_summary summary_text subcategories respond = ⟨[], [], 0⟩) ∧
    (¬(summary_text = "" ∨ pyStripS summary_text = "") →
      (classify_summary summary_text subcategories respond).slots.length = 3 ∧
      (classify_summary summary_text subcategories respond).llmCalls = 1 ∧
      ∀ s ∈ (classify_summary summary_text subcategories respond).slots, pyStripS s = s) := by
  constructor
  · intro h
    unfold classify_summary
    rw [if_pos h]
  · intro h
    unfold classify_summary
    rw [if_neg h]
    have hs := extractClassificationOfJson_shape
      (call_llm (build_classification_messages summary_text subcategories) respond).result
    exact ⟨hs.1, rfl, hs.2⟩

/-- C1 amended, witness: the blank case at `"  "` and the 3-slot case at
`"x"` against the always-failing endpoint. -/
theorem classify_summary_shape_witness :
    classify_summary "  " [] failRespond = ⟨[], [], 0⟩ ∧
    (classify_summary "x" [] failRespond).slots.length = 3 := by
  refine ⟨(classify_summary_shape "  " [] failRespond).1 (Or.inr (by decide)),
    ((classify_summary_shape "x" [] failRespond).2 (by decide)).1⟩

/-! ## C5 -/

theorem dictInsert_keys (d : List (String × String)) (k v : String) :
    ∀ x ∈ (dictInsert d k v).map Prod.fst, x ∈ d.map Prod.fst ∨ x = k := by
  intro x hx
  unfold dictInsert at hx
  by_cases h : d.any (fun kv => kv.1 == k)
  · rw [if_pos h] at hx
    obtain ⟨y, hy, hxy⟩ := List.mem_map.mp hx
    obtain ⟨z, hz, rfl⟩ := List.mem_map.mp hy
    by_cases hzk : z.1 == k
    · rw [if_pos hzk] at hxy
      exact Or.inr hxy.symm
    · rw [if_neg hzk] at hxy
      exact Or.inl (hxy ▸ List.mem_map.mpr ⟨z, hz, rfl⟩)
  · rw [if_neg h, List.map_append] at hx
    rcases List.mem_append.mp hx with h2 | h2
    · exact Or.inl h2
    · simp only [List.map_cons, List.map_nil, List.mem_singleton] at h2
      exact Or.inr h2

theorem foldl_dictInsert_keys (l : List (String × String)) :
    ∀ acc x, x ∈ (l.foldl (fun d r => dictInsert d r.2 r.1) acc).map Prod.fst →
      x ∈ acc.map Prod.fst ∨ ∃ r ∈ l, x = r.2 := by
  induction l with
  | nil =>
    intro acc x hx
    exact Or.inl hx
  | cons p t ih =>
    intro acc x hx
    rcases ih (dictInsert acc p.2 p.1) x hx with h | h
    · rcases dictInsert_keys acc p.2 p.1 x h with h2 | h2
      · exact Or.inl h2
      · exact Or.inr ⟨p, List.mem_cons_self p t, h2⟩
    · obtain ⟨r, hr, hxr⟩ := h
      exact Or.inr ⟨r, List.mem_cons_of_mem p hr, hxr⟩

/-- C5 counterexample: a whitespace-only subcategory cell produces the
empty string as a subcategory key, so the keys of the built mapping are not
all non-empty. -/
theorem load_categories_blank_key_cex :
    (load_categories [("Billing", " ")]).2.map Prod.fst = [""] ∧ pyStripS "" = "" :=
  ⟨by decide, rfl⟩

/-- C5 amended: every subcategory key in the mapping built by
`load_categories` is a trimmed string (stripping it again changes
nothing), and provided every input subcategory is non-blank (non-empty
after trimming), every key is non-empty. -/
theorem load_categories_keys_trimmed (rows : List (String × String)) :
    ∀ k ∈ (load_categories rows).2.map Prod.fst,
      pyStripS k = k ∧ ((∀ r ∈ rows, pyStripS r.2 ≠ "") → k ≠ "") := by
  intro k hk
  unfold load_categories at hk
  simp only [] at hk
  rcases foldl_dictInsert_keys (rows.map (fun r => (pyStripS r.1, pyStripS r.2))) [] k hk
    with h | h
  · simp at h
  · obtain ⟨r, hr, hkr⟩ := h
    obtain ⟨r0, hr0, rfl⟩ := List.mem_map.mp hr
    subst hkr
    exact ⟨pyStripS_idem r0.2, fun hne => hne r0 hr0⟩

/-- C5 amended, witness: the key `"Refund"` of the one-row catalog. -/
theorem load_categories_keys_trimmed_witness :
    pyStripS "Refund" = "Refund" ∧
    ((∀ r ∈ [("Billing", "Refund")], pyStripS r.2 ≠ "") → "Refund" ≠ "") :=
  load_categories_keys_trimmed [("Billing", "Refund")] "Refund" (by decide)

/-! ## Lemmas about the single-column variant -/

theorem splitCommaGo_append (s t : List Char) :
    ∀ acc, splitCommaGo acc (s ++ ',' :: t) = splitCommaGo acc s ++ splitComma t := by
  induction s with
  | nil =>
    intro acc
    simp [splitCommaGo, splitComma]
  | cons c r ih =>
    intro acc
    by_cases hc : c = ','
    · subst hc
      simp [splitCommaGo, ih]
    · simp [splitCommaGo, hc, ih]

theorem splitComma_append (s t : List Char) :
    splitComma (s ++ ',' :: t) = splitComma s ++ splitComma t :=
  splitCommaGo_append s t []

theorem take_pad_eq (parts : List String) :
    (if parts.length < 6 then parts ++ List.replicate (6 - parts.length) "" else parts).take 6
      = parts.take 6 ++ List.replicate (6 - parts.length) "" := by
  by_cases h : parts.length < 6
  · rw [if_pos h, List.take_of_length_le (by simp; omega),
      List.take_of_length_le (le_of_lt h)]
  · have h0 : 6 - parts.length = 0 := by omega
    rw [if_neg h, h0, List.replicate_zero, List.append_nil]

theorem virgulluColsSpec_length (cell : Option String) : (virgulluColsSpec cell).length = 6 := by
  unfold virgulluColsSpec
  simp only [List.length_append, List.length_take, List.length_replicate]
  omega

theorem virgulluRow_eq (cell : Option String) (respond : Payload → Nat → HttpResp) :
    virgulluRow cell respond =
      (virgulluColsSpec cell,
       if (virgulluColsSpec cell).getD 5 "" = "" then ("", 0)
       else ((summarize_with_llm ((virgulluColsSpec cell).getD 5 "") respond).result, 1)) := by
  unfold virgulluRow virgulluColsSpec
  simp only [take_pad_eq]
  by_cases hc :
      (((splitComma (rowTextOf cell).data).map (fun p => String.mk (pyStrip p))).take 6 ++
        List.replicate
          (6 - ((splitComma (rowTextOf cell).data).map (fun p => String.mk (pyStrip p))).length)
          "").getD 5 "" = ""
  · rw [if_pos hc, if_pos hc]
  · rw [if_neg hc, if_neg hc]

theorem virgulluColsSpec_drop_extra (s extra : String)
    (h6 : 6 ≤ (splitComma s.data).length) :
    virgulluColsSpec (some (s ++ "," ++ extra)) = virgulluColsSpec (some s) := by
  have hdata : (s ++ "," ++ extra).data = s.data ++ ',' :: extra.data := by
    simp [String.data_append]
  simp only [virgulluColsSpec, rowTextOf]
  rw [hdata, splitComma_append, List.map_append]
  have hlen : 6 ≤ ((splitComma s.data).map (fun p => String.mk (pyStrip p))).length := by
    simpa using h6
  rw [List.take_append_of_le_length hlen]
  have h1 : 6 - (((splitComma s.data).map (fun p => String.mk (pyStrip p))) ++
      ((splitComma extra.data).map (fun p => String.mk (pyStrip p)))).length = 0 := by
    simp only [List.length_append]
    omega
  have h2 : 6 - ((splitComma s.data).map (fun p => String.mk (pyStrip p))).length = 0 := by
    omega
  rw [h1, h2]

/-! ## C9 -/

/-- C9: a transcript value that is missing (`NaN`) or trims to the empty
string yields the empty string as that row's summary and never invokes the
LLM Client, in `summarize.py` (`summarizeRow`) as well as in the
single-column variant `virgullu.py` (`virgulluRow`, whose transcript is the
already-trimmed sixth field). -/
theorem blank_transcript_skips_llm (respond : Payload → Nat → HttpResp) (cell : Option String)
    (h : cell = none ∨ ∃ s, cell = some s ∧ pyStripS s = "") :
    summarizeRow cell respond = ("", 0) ∧
    ∀ c2 : Option String, (virgulluRow c2 respond).1.getD 5 "" = "" →
      (virgulluRow c2 respond).2 = ("", 0) := by
  constructor
  · rcases h with rfl | ⟨s, rfl, hs⟩
    · rfl
    · simp only [summarizeRow]
      rw [hs]
      rfl
  · intro c2 h2
    rw [virgulluRow_eq] at h2 ⊢
    simp only [] at h2
    rw [if_pos h2]

/-- C9 witness: a whitespace-only transcript cell for the summarization
stage and a two-field row (empty sixth field) for the single-column
variant. -/
theorem blank_transcript_skips_llm_witness :
    summarizeRow (some "   ") failRespond = ("", 0) ∧
    (virgulluRow (some "a,b") failRespond).2 = ("", 0) := by
  have h := blank_transcript_skips_llm failRespond (some "   ")
    (Or.inr ⟨"   ", rfl, by decide⟩)
  exact ⟨h.1, h.2 (some "a,b") (by decide)⟩

/-! ## C10 -/

/-- C10: in the single-column variant, the row text is split on commas with
each part trimmed, the first six parts (padded with empty strings when
fewer exist) become the six output columns, the sixth part is the
transcript handed to the summarizer, and all parts beyond the sixth are
discarded — appending `"," ++ extra` to a row that already has six parts
does not change the output, so a transcript containing a comma is cut off
at that comma. -/
theorem virgullu_single_column_split (cell : Option String)
    (respond : Payload → Nat → HttpResp) :
    (virgulluRow cell respond).1 = virgulluColsSpec cell ∧
    (virgulluColsSpec cell).length = 6 ∧
    (virgulluRow cell respond).2 =
      (if (virgulluColsSpec cell).getD 5 "" = "" then ("", 0)
       else ((summarize_with_llm ((virgulluColsSpec cell).getD 5 "") respond).result, 1)) ∧
    (∀ s extra : String, 6 ≤ (splitComma s.data).length →
      virgulluRow (some (s ++ "," ++ extra)) respond = virgulluRow (some s) respond) := by
  refine ⟨by rw [virgulluRow_eq], virgulluColsSpec_length cell, by rw [virgulluRow_eq], ?_⟩
  intro s extra h6
  rw [virgulluRow_eq, virgulluRow_eq, virgulluColsSpec_drop_extra s extra h6]

/-- C10 witness: a six-field row with a comma-bearing continuation is cut
off at the comma, and a concrete column shape. -/
theorem virgullu_single_column_split_witness :
    virgulluRow (some ("a,b,c,d,e,f" ++ "," ++ "g, h")) failRespond
      = virgulluRow (some "a,b,c,d,e,f") failRespond ∧
    (virgulluColsSpec (some "a, b,c,d,e, hello, world")).length = 6 := by
  have h1 := (virgullu_single_column_split none failRespond).2.2.2 "a,b,c,d,e,f" "g, h"
    (by decide)
  have h2 := (virgullu_single_column_split (some "a, b,c,d,e, hello, world") failRespond).2.1
  exact ⟨h1, h2⟩

/-! ## Lemmas about the JSON parser: consumption and brace occurrence -/

theorem skipWs_subset (cs : List Char) : skipWs cs ⊆ cs :=
  (List.dropWhile_sublist (l := cs) isJsonWs).subset

theorem skipWs_cons_subset (cs : List Char) (c : Char) (r : List Char)
    (h : skipWs cs = c :: r) : c :: r ⊆ cs := by
  rw [← h]
  exact skipWs_subset cs

theorem parseStringF_subset :
    ∀ (n : Nat) (cs acc : List Char) (s : String) (rest : List Char),
      parseStringF n cs acc = some (s, rest) → rest ⊆ cs := by
  intro n
  induction n with
  | zero => intro cs acc s rest h; exact absurd h (by simp [parseStringF])
  | succ n ih =>
    intro cs acc s rest h
    cases cs with
    | nil => exact absurd h (by simp [parseStringF])
    | cons c r =>
      unfold parseStringF at h
      by_cases hq : c = '\"'
      · rw [if_pos hq] at h
        obtain ⟨-, rfl⟩ := by simpa using h
        exact fun x hx => List.mem_cons_of_mem c hx
      · rw [if_neg hq] at h
        by_cases hb : c = '\\'
        · rw [if_pos hb] at h
          cases r with
          | nil => exact absurd h (by simp)
          | cons e r2 =>
            dsimp only at h
            cases he : escChar e with
            | none => rw [he] at h; exact absurd h (by simp)
            | some ec =>
              rw [he] at h
              have := ih r2 (ec :: acc) s rest h
              exact fun x hx =>
                List.mem_cons_of_mem c (List.mem_cons_of_mem e (this hx))
        · rw [if_neg hb] at h
          by_cases hc : c.toNat < 32
          · rw [if_pos hc] at h; exact absurd h (by simp)
          · rw [if_neg hc] at h
            have := ih r (c :: acc) s rest h
            exact fun x hx => List.mem_cons_of_mem c (this hx)

theorem dropLit_subset :
    ∀ (ps cs rest : List Char), dropLit ps cs = some rest → rest ⊆ cs := by
  intro ps
  induction ps with
  | nil =>
    intro cs rest h
    obtain rfl : cs = rest := by simpa [dropLit] using h
    exact fun x hx => hx
  | cons p pt ih =>
    intro cs rest h
    cases cs with
    | nil => exact absurd h (by simp [dropLit])
    | cons c ct =>
      unfold dropLit at h
      by_cases hc : c = p
      · rw [if_pos hc] at h
        exact fun x hx => List.mem_cons_of_mem c (ih ct rest h hx)
      · rw [if_neg hc] at h; exact absurd h (by simp)

theorem parseDigits_subset (d : Char) (r : List Char) (v : Nat) (rest : List Char)
    (h : parseDigits d r = some (v, rest)) : rest ⊆ r := by
  unfold parseDigits at h
  by_cases hz : (d = '0' && !(r.takeWhile Char.isDigit).isEmpty) = true
  · rw [if_pos hz] at h; exact absurd h (by simp)
  · rw [if_neg hz] at h
    obtain ⟨-, rfl⟩ := by simpa using h
    exact (List.dropWhile_sublist (l := r) Char.isDigit).subset

theorem parseNumberFrom_subset (c : Char) (r : List Char) (j : Json) (rest : List Char)
    (h : parseNumberFrom c r = some (j, rest)) : rest ⊆ r := by
  unfold parseNumberFrom at h
  by_cases hm : c = '-'
  · rw [if_pos hm] at h
    cases r with
    | nil => exact absurd h (by simp)
    | cons d r2 =>
      dsimp only at h
      by_cases hd : d.isDigit
      · rw [if_pos hd] at h
        cases hp : parseDigits d r2 with
        | none => rw [hp] at h; exact absurd h (by simp)
        | some p =>
          rw [hp] at h
          obtain ⟨-, rfl⟩ := by simpa using h
          exact fun x hx => List.mem_cons_of_mem d (parseDigits_subset d r2 p.1 p.2 hp hx)
      · rw [if_neg hd] at h; exact absurd h (by simp)
  · rw [if_neg hm] at h
    by_cases hd : c.isDigit
    · rw [if_pos hd] at h
      cases hp : parseDigits c r with
      | none => rw [hp] at h; exact absurd h (by simp)
      | some p =>
        rw [hp] at h
        obtain ⟨-, rfl⟩ := by simpa using h
        exact parseDigits_subset c r p.1 p.2 hp
    · rw [if_neg hd] at h; exact absurd h (by simp)

theorem parseNumberFrom_not_obj (c : Char) (r : List Char) (j : Json) (rest : List Char)
    (h : parseNumberFrom c r = some (j, rest)) : ∀ kvs, j ≠ Json.obj kvs := by
  unfold parseNumberFrom at h
  by_cases hm : c = '-'
  · rw [if_pos hm] at h
    cases r with
    | nil => exact absurd h (by simp)
    | cons d r2 =>
      dsimp only at h
      by_cases hd : d.isDigit
      · rw [if_pos hd] at h
        cases hp : parseDigits d r2 with
        | none => rw [hp] at h; exact absurd h (by simp)
        | some p =>
          rw [hp] at h
          obtain ⟨rfl, -⟩ := by simpa using h
          intro kvs hk
          exact absurd hk (by simp)
      · rw [if_neg hd] at h; exact absurd h (by simp)
  · rw [if_neg hm] at h
    by_cases hd : c.isDigit
    · rw [if_pos hd] at h
      cases hp : parseDigits c r with
      | none => rw [hp] at h; exact absurd h (by simp)
      | some p =>
        rw [hp] at h
        obtain ⟨rfl, -⟩ := by simpa using h
        intro kvs hk
        exact absurd hk (by simp)
    · rw [if_neg hd] at h; exact absurd h (by simp)

theorem parserConsume : ∀ n : Nat,
    (∀ cs v rest, parseValue n cs = some (v, rest) → rest ⊆ cs) ∧
    (∀ cs kvs rest, parseObjItems n cs = some (kvs, rest) → rest ⊆ cs ∧ braceClose ∈ cs) ∧
    (∀ cs kvs rest, parseObjMore n cs = some (kvs, rest) → rest ⊆ cs ∧ braceClose ∈ cs) ∧
    (∀ cs xs rest, parseArrItems n cs = some (xs, rest) → rest ⊆ cs) ∧
    (∀ cs xs rest, parseArrMore n cs = some (xs, rest) → rest ⊆ cs) := by
  intro n
  induction n with
  | zero =>
    refine ⟨?_, ?_, ?_, ?_, ?_⟩ <;> intro cs a rest h <;>
      exact absurd h (by simp [parseValue, parseObjItems, parseObjMore,
        parseArrItems, parseArrMore])
  | succ n ih =>
    obtain ⟨ipv, ipoi, ipom, ipai, ipam⟩ := ih
    refine ⟨?_, ?_, ?_, ?_, ?_⟩
    · -- parseValue
      intro cs v rest h
      unfold parseValue at h
      split at h
      · exact absurd h (by simp)
      · rename_i c r hsw
        have hsub : c :: r ⊆ cs := skipWs_cons_subset cs c r hsw
        have hrsub : r ⊆ cs := fun x hx => hsub (List.mem_cons_of_mem c hx)
        split at h
        · split at h
          · rename_i kvs1 rest1 hpo
            obtain ⟨-, rfl⟩ := by simpa using h
            exact fun x hx => hrsub ((ipoi r kvs1 rest1 hpo).1 hx)
          · exact absurd h (by simp)
        · split at h
          · split at h
            · rename_i xs1 rest1 hpa
              obtain ⟨-, rfl⟩ := by simpa using h
              exact fun x hx => hrsub (ipai r xs1 rest1 hpa hx)
            · exact absurd h (by simp)
          · split at h
            · split at h
              · rename_i s1 rest1 hps
                obtain ⟨-, rfl⟩ := by simpa using h
                exact fun x hx => hrsub (parseStringF_subset n r [] s1 rest1 hps hx)
              · exact absurd h (by simp)
            · split at h
              · split at h
                · rename_i rest1 hdl
                  obtain ⟨-, rfl⟩ := by simpa using h
                  exact fun x hx => hrsub (dropLit_subset _ r rest1 hdl hx)
                · exact absurd h (by simp)
              · split at h
                · split at h
                  · rename_i rest1 hdl
                    obtain ⟨-, rfl⟩ := by simpa using h
                    exact fun x hx => hrsub (dropLit_subset _ r rest1 hdl hx)
                  · exact absurd h (by simp)
                · split at h
                  · split at h
                    · rename_i rest1 hdl
                      obtain ⟨-, rfl⟩ := by simpa using h
                      exact fun x hx => hrsub (dropLit_subset _ r rest1 hdl hx)
                    · exact absurd h (by simp)
                  · exact fun x hx => hrsub (parseNumberFrom_subset c r v rest h hx)
    · -- parseObjItems
      intro cs kvs rest h
      unfold parseObjItems at h
      split at h
      · exact absurd h (by simp)
      · rename_i c r hsw
        have hsub : c :: r ⊆ cs := skipWs_cons_subset cs c r hsw
        have hrsub : r ⊆ cs := fun x hx => hsub (List.mem_cons_of_mem c hx)
        split at h
        · rename_i hc
          obtain ⟨-, rfl⟩ := by simpa using h
          subst hc
          exact ⟨hrsub, hsub (List.mem_cons_self _ _)⟩
        · split at h
          · split at h
            · rename_i k rest1 hps
              split at h
              · rename_i rest2 hcolon
                split at h
                · rename_i v1 rest3 hpv
                  split at h
                  · rename_i kvs1 rest4 hpm
                    obtain ⟨-, rfl⟩ := by simpa using h
                    have h1 : rest1 ⊆ r := parseStringF_subset n r [] k rest1 hps
                    have h2 : rest2 ⊆ rest1 := fun x hx =>
                      skipWs_cons_subset rest1 ':' rest2 hcolon (List.mem_cons_of_mem _ hx)
                    have h3 : rest3 ⊆ rest2 := ipv rest2 v1 rest3 hpv
                    have h4 := ipom rest3 kvs1 rest4 hpm
                    exact ⟨fun x hx => hrsub (h1 (h2 (h3 (h4.1 hx)))),
                      hrsub (h1 (h2 (h3 h4.2)))⟩
                  · exact absurd h (by simp)
                · exact absurd h (by simp)
              · exact absurd h (by simp)
            · exact absurd h (by simp)
          · exact absurd h (by simp)
    · -- parseObjMore
      intro cs kvs rest h
      unfold parseObjMore at h
      split at h
      · exact absurd h (by simp)
      · rename_i c r hsw
        have hsub : c :: r ⊆ cs := skipWs_cons_subset cs c r hsw
        have hrsub : r ⊆ cs := fun x hx => hsub (List.mem_cons_of_mem c hx)
        split at h
        · rename_i hc
          obtain ⟨-, rfl⟩ := by simpa using h
          subst hc
          exact ⟨hrsub, hsub (List.mem_cons_self _ _)⟩
        · split at h
          · split at h
            · exact absurd h (by simp)
            · rename_i c2 r2 hsw2
              have hsub2 : c2 :: r2 ⊆ r := skipWs_cons_subset r c2 r2 hsw2
              have hrsub2 : r2 ⊆ r := fun x hx => hsub2 (List.mem_cons_of_mem c2 hx)
              split at h
              · split at h
                · rename_i k rest1 hps
                  split at h
                  · rename_i rest2 hcolon
                    split at h
                    · rename_i v1 rest3 hpv
                      split at h
                      · rename_i kvs1 rest4 hpm
                        obtain ⟨-, rfl⟩ := by simpa using h
                        have h1 : rest1 ⊆ r2 := parseStringF_subset n r2 [] k rest1 hps
                        have h2 : rest2 ⊆ rest1 := fun x hx =>
                          skipWs_cons_subset rest1 ':' rest2 hcolon (List.mem_cons_of_mem _ hx)
                        have h3 : rest3 ⊆ rest2 := ipv rest2 v1 rest3 hpv
                        have h4 := ipom rest3 kvs1 rest4 hpm
                        exact ⟨fun x hx => hrsub (hrsub2 (h1 (h2 (h3 (h4.1 hx))))),
                          hrsub (hrsub2 (h1 (h2 (h3 h4.2))))⟩
                      · exact absurd h (by simp)
                    · exact absurd h (by simp)
                  · exact absurd h (by simp)
                · exact absurd h (by simp)
              · exact absurd h (by simp)
          · exact absurd h (by simp)
    · -- parseArrItems
      intro cs xs rest h
      unfold parseArrItems at h
      split at h
      · exact absurd h (by simp)
      · rename_i c r hsw
        have hsub : c :: r ⊆ cs := skipWs_cons_subset cs c r hsw
        have hrsub : r ⊆ cs := fun x hx => hsub (List.mem_cons_of_mem c hx)
        split at h
        · obtain ⟨-, rfl⟩ := by simpa using h
          exact hrsub
        · split at h
          · rename_i v1 rest1 hpv
            split at h
            · rename_i xs1 rest2 hpa
              obtain ⟨-, rfl⟩ := by simpa using h
              have h1 : rest1 ⊆ c :: r := ipv (c :: r) v1 rest1 hpv
              have h2 : rest2 ⊆ rest1 := ipam rest1 xs1 rest2 hpa
              exact fun x hx => hsub (h1 (h2 hx))
            · exact absurd h (by simp)
          · exact absurd h (by simp)
    · -- parseArrMore
      intro cs xs rest h
      unfold parseArrMore at h
      split at h
      · exact absurd h (by simp)
      · rename_i c r hsw
        have hsub : c :: r ⊆ cs := skipWs_cons_subset cs c r hsw
        have hrsub : r ⊆ cs := fun x hx => hsub (List.mem_cons_of_mem c hx)
        split at h
        · obtain ⟨-, rfl⟩ := by simpa using h
          exact hrsub
        · split at h
          · split at h
            · rename_i v1 rest1 hpv
              split at h
              · rename_i xs1 rest2 hpa
                obtain ⟨-, rfl⟩ := by simpa using h
                have h1 : rest1 ⊆ r := ipv r v1 rest1 hpv
                have h2 : rest2 ⊆ rest1 := ipam rest1 xs1 rest2 hpa
                exact fun x hx => hrsub (h1 (h2 hx))
              · exact absurd h (by simp)
            · exact absurd h (by simp)
          · exact absurd h (by simp)

theorem parseValue_obj_braces (n : Nat) (cs : List Char) (kvs : List (String × Json))
    (rest : List Char) (h : parseValue n cs = some (Json.obj kvs, rest)) :
    braceOpen ∈ cs ∧ braceClose ∈ cs := by
  cases n with
  | zero => exact absurd h (by simp [parseValue])
  | succ n =>
    unfold parseValue at h
    split at h
    · exact absurd h (by simp)
    · rename_i c r hsw
      have hsub : c :: r ⊆ cs := skipWs_cons_subset cs c r hsw
      have hrsub : r ⊆ cs := fun x hx => hsub (List.mem_cons_of_mem c hx)
      split at h
      · rename_i hc
        split at h
        · rename_i kvs1 rest1 hpo
          refine ⟨?_, ?_⟩
          · subst hc
            exact hsub (List.mem_cons_self _ _)
          · exact hrsub ((parserConsume n).2.1 r kvs1 rest1 hpo).2
        · exact absurd h (by simp)
      · split at h
        · split at h
          · simp at h
          · exact absurd h (by simp)
        · split at h
          · split at h
            · simp at h
            · exact absurd h (by simp)
          · split at h
            · split at h
              · simp at h
              · exact absurd h (by simp)
            · split at h
              · split at h
                · simp at h
                · exact absurd h (by simp)
              · split at h
                · split at h
                  · simp at h
                  · exact absurd h (by simp)
                · exact absurd rfl (parseNumberFrom_not_obj c r _ rest h kvs)

theorem parseJsonChars_obj_braces (cs : List Char) (kvs : List (String × Json))
    (h : parseJsonChars cs = some (Json.obj kvs)) :
    braceOpen ∈ cs ∧ braceClose ∈ cs := by
  unfold parseJsonChars at h
  split at h
  · rename_i j rest hpv
    split at h
    · obtain rfl : j = Json.obj kvs := by simpa using h
      exact parseValue_obj_braces _ cs kvs rest hpv
    · exact absurd h (by simp)
  · exact absurd h (by simp)

theorem findCharIdx_eq_none (c : Char) (l : List Char) (h : c ∉ l) :
    findCharIdx c l = none := by
  induction l with
  | nil => rfl
  | cons a t ih =>
    unfold findCharIdx
    rw [if_neg (by rintro rfl; exact h (List.mem_cons_self a t))]
    rw [ih (fun hct => h (List.mem_cons_of_mem a hct))]
    rfl

theorem rfindCharIdx_eq_none (c : Char) (l : List Char) (h : c ∉ l) :
    rfindCharIdx c l = none := by
  unfold rfindCharIdx
  rw [findCharIdx_eq_none c l.reverse (by simpa using h)]
  rfl

theorem usableSubList_error_of_brace_missing (raw : String)
    (h : braceOpen ∉ raw.data ∨ braceClose ∉ raw.data) :
    ∃ e, usableSubList raw = Except.error e := by
  have hbs : braceSlice (pyStrip raw.data) = pyStrip raw.data := by
    rcases h with h | h
    · have hno : braceOpen ∉ pyStrip raw.data := fun hx => h (pyStrip_subset raw.data hx)
      unfold braceSlice
      rw [findCharIdx_eq_none _ _ hno]
    · have hno : braceClose ∉ pyStrip raw.data := fun hx => h (pyStrip_subset raw.data hx)
      unfold braceSlice
      rw [rfindCharIdx_eq_none _ _ hno]
      cases findCharIdx braceOpen (pyStrip raw.data) <;> rfl
  cases hpj : parseJsonChars (pyStrip raw.data) with
  | none =>
    refine ⟨"Expecting value", ?_⟩
    simp only [usableSubList]
    rw [hbs, hpj]
  | some parsed =>
    cases parsed with
    | obj kvs =>
      exfalso
      have hbr := parseJsonChars_obj_braces (pyStrip raw.data) kvs hpj
      rcases h with h | h
      · exact h (pyStrip_subset raw.data hbr.1)
      · exact h (pyStrip_subset raw.data hbr.2)
    | null =>
      refine ⟨"AttributeError: get", ?_⟩
      simp only [usableSubList]
      rw [hbs, hpj]
    | bool b =>
      refine ⟨"AttributeError: get", ?_⟩
      simp only [usableSubList]
      rw [hbs, hpj]
    | num m =>
      refine ⟨"AttributeError: get", ?_⟩
      simp only [usableSubList]
      rw [hbs, hpj]
    | str s =>
      refine ⟨"AttributeError: get", ?_⟩
      simp only [usableSubList]
      rw [hbs, hpj]
    | arr xs =>
      refine ⟨"AttributeError: get", ?_⟩
      simp only [usableSubList]
      rw [hbs, hpj]

/-! ## C4 -/

/-- C4: for every non-empty assistant text from which no JSON object with a
usable `subcategories` list can be parsed — including any text in which the
opening brace or the closing brace is absent — `extractClassification`
returns three empty placeholders, emits a diagnostic carrying the raw text,
and raises no exception (the extractor is a total function). -/
theorem extractClassification_unparsable_placeholders (raw : String) (_hne : raw ≠ "")
    (h : (∃ e, usableSubList raw = Except.error e) ∨
      braceOpen ∉ raw.data ∨ braceClose ∉ raw.data) :
    ∃ e, extractClassification raw =
      ⟨["", "", ""],
       ["[ERROR] Failed to parse JSON from LLM response: " ++ e,
        "Raw content was: " ++ raw]⟩ := by
  have hu : ∃ e, usableSubList raw = Except.error e := by
    rcases h with h | h
    · exact h
    · exact usableSubList_error_of_brace_missing raw h
  obtain ⟨e, he⟩ := hu
  refine ⟨e, ?_⟩
  unfold extractClassification
  rw [he]

/-- C4 witness: the unparsable input `"not json"` (which contains neither
brace) yields three empty placeholders and a diagnostic with the raw
text. -/
theorem extractClassification_unparsable_placeholders_witness :
    (extractClassification "not json").slots = ["", "", ""] ∧
    "Raw content was: not json" ∈ (extractClassification "not json").diag := by
  obtain ⟨e, he⟩ := extractClassification_unparsable_placeholders "not json" (by decide)
    (Or.inr (Or.inl (by decide)))
  rw [he]
  exact ⟨rfl, by simp⟩
